import Mathlib

/-!
Verification of the generic data-transformation filters of the
ansible-role-host_inspector repository: the recursive merger
(`filter_plugins/merge_filters.py`), the metadata stripper and combiner
(`filter_plugins/combine_info.py`), the key extractor
(`filter_plugins/extract_key.py`) and the deep obfuscator
(`lookup_plugins/obfuscate.py`).

The Python values flowing through these filters are modelled by the
inductive type `Node` (null, booleans, numbers, strings, lists, dicts).
Dicts are association lists of string keys in insertion order, mirroring
CPython dict semantics (lookup of the first matching key; assignment
replaces in place, insertion appends at the end).  Fallible Python code
(code that can raise) is modelled with `Except String`, the error being
the exception's message.
-/

namespace HostInspector

/-- A Python value as the filters see it: None, bool, int, str, list, dict.
Python numbers are modelled as integers; dicts as insertion-ordered
association lists with string keys. -/
inductive Node where
  | null : Node
  | bool : Bool → Node
  | num : Int → Node
  | str : String → Node
  | seq : List Node → Node
  | map : List (String × Node) → Node

open Node

mutual

/-- Structural equality on `Node`, modelling Python `==` on these values. -/
def nodeBeq : Node → Node → Bool
  | .null, .null => true
  | .bool a, .bool b => a == b
  | .num a, .num b => a == b
  | .str a, .str b => a == b
  | .seq a, .seq b => nodeListBeq a b
  | .map a, .map b => nodePairsBeq a b
  | _, _ => false

/-- Elementwise equality of two lists of nodes. -/
def nodeListBeq : List Node → List Node → Bool
  | [], [] => true
  | x :: xs, y :: ys => nodeBeq x y && nodeListBeq xs ys
  | _, _ => false

/-- Pairwise equality of two association lists. -/
def nodePairsBeq : List (String × Node) → List (String × Node) → Bool
  | [], [] => true
  | (k1, v1) :: xs, (k2, v2) :: ys => k1 == k2 && nodeBeq v1 v2 && nodePairsBeq xs ys
  | _, _ => false

end

instance : BEq Node := ⟨nodeBeq⟩

theorem nodeBeq_iff : ∀ a b : Node, nodeBeq a b = true ↔ a = b := by
  apply nodeBeq.induct
    (motive_1 := fun a b => nodeBeq a b = true ↔ a = b)
    (motive_2 := fun p1 p2 => nodePairsBeq p1 p2 = true ↔ p1 = p2)
    (motive_3 := fun l1 l2 => nodeListBeq l1 l2 = true ↔ l1 = l2)
  · simp [nodeBeq]
  · intro a b; simp [nodeBeq]
  · intro a b; simp [nodeBeq]
  · intro a b; simp [nodeBeq]
  · intro a b ih; simp [nodeBeq, ih]
  · intro a b ih; simp [nodeBeq, ih]
  · intro t x h1 h2 h3 h4 h5 h6
    cases t <;> cases x <;>
      first
        | exact (h1 rfl rfl).elim
        | exact (h2 _ _ rfl rfl).elim
        | exact (h3 _ _ rfl rfl).elim
        | exact (h4 _ _ rfl rfl).elim
        | exact (h5 _ _ rfl rfl).elim
        | exact (h6 _ _ rfl rfl).elim
        | simp [nodeBeq]
  · simp [nodeListBeq]
  · intro x xs y ys ih1 ih2; simp [nodeListBeq, ih1, ih2]
  · intro t x h1 h2
    cases t <;> cases x <;>
      first
        | exact (h1 rfl rfl).elim
        | exact (h2 _ _ _ _ rfl rfl).elim
        | simp [nodeListBeq]
  · simp [nodePairsBeq]
  · intro k1 v1 xs k2 v2 ys ih1 ih2; simp [nodePairsBeq, ih1, ih2]
  · intro t x h1 h2
    cases t <;> cases x
    · exact (h1 rfl rfl).elim
    · simp [nodePairsBeq]
    · simp [nodePairsBeq]
    · rename_i p xs q ys
      exact (h2 p.1 p.2 xs q.1 q.2 ys rfl rfl).elim

instance : LawfulBEq Node where
  eq_of_beq h := (nodeBeq_iff _ _).1 h
  rfl := (nodeBeq_iff _ _).2 rfl

@[simp] theorem beq_node_def (a b : Node) : (a == b) = nodeBeq a b := rfl

instance : DecidableEq Node := fun a b => decidable_of_iff (nodeBeq a b = true) (nodeBeq_iff a b)

/-- Lookup in a Python dict: the value of the first entry with the given key. -/
def lookupKey : List (String × Node) → String → Option Node
  | [], _ => none
  | (k', v) :: rest, k => if k' = k then some v else lookupKey rest k

/-- Python dict assignment `d[k] = v`: replace the existing entry in place,
or append a new entry at the end. -/
def setKey : List (String × Node) → String → Node → List (String × Node)
  | [], k, v => [(k, v)]
  | (k', v') :: rest, k, v => if k' = k then (k', v) :: rest else (k', v') :: setKey rest k v

/-- `isinstance(x, Mapping)` over the Node domain. -/
def isMapping : Node → Bool
  | .map _ => true
  | _ => false

/-- `isinstance(x, Iterable)` over the Node domain: strings, lists and dicts
are iterable; None, booleans and numbers are not. -/
def isIterable : Node → Bool
  | .str _ => true
  | .seq _ => true
  | .map _ => true
  | _ => false

/-- `isinstance(x, str)`. -/
def isStr : Node → Bool
  | .str _ => true
  | _ => false

/-- `isinstance(x, list)`. -/
def isList : Node → Bool
  | .seq _ => true
  | _ => false

/-- Whether a Python value is hashable: scalars and strings are, lists and
dicts are not. -/
def isHashable : Node → Bool
  | .seq _ => false
  | .map _ => false
  | _ => true

/-- The elements produced by iterating a Python value: the characters of a
string (as one-character strings), the elements of a list, the keys of a
dict.  Only used on iterable values. -/
def pyIter : Node → List Node
  | .str s => s.data.map (fun c => Node.str (String.mk [c]))
  | .seq l => l
  | .map m => m.map (fun p => Node.str p.1)
  | _ => []

/-- Drop duplicate elements, keeping the first occurrence of each.  CPython
set iteration order is unspecified; this canonical first-occurrence order is
a modelling choice, and no confirmed theorem depends on it. -/
def dedupFirst : List Node → List Node
  | [] => []
  | x :: rest => x :: dedupFirst (rest.filter (fun y => !(y == x)))
termination_by l => l.length
decreasing_by
  simp only [List.length_cons]
  exact Nat.lt_succ_of_le (List.length_filter_le _ _)

/-- The message of the TypeError CPython raises when `set()` meets an
unhashable element (a list or a dict). -/
def unhashableMsg : String := "TypeError: unhashable type"

/-- `set(x)` for an iterable `x`: the distinct elements, failing with a
TypeError when any element is unhashable. -/
def pySet (x : Node) : Except String (List Node) :=
  if (pyIter x).all isHashable then .ok (dedupFirst (pyIter x)) else .error unhashableMsg

/-- `list(set(dict1[key]) | set(value))` of merge_filters.py line 16: coerce
both sides to sets (left first, as CPython evaluates them) and produce the
union as a list.  (The `dict1[key].union(value)` arm guarded by
`isinstance(dict1[key], set)` is unreachable over the Node domain, which
has no sets.) -/
def pyUnion (a b : Node) : Except String Node :=
  match pySet a with
  | .error e => .error e
  | .ok s1 =>
    match pySet b with
    | .error e => .error e
    | .ok s2 => .ok (.seq (dedupFirst (s1 ++ s2)))

mutual

/-- Conflict resolution of `recursive_merge` (merge_filters.py lines 5-19)
for one key present in both dicts, given the base value and the overlay
value: recurse when both are mappings; when both are iterables and the
overlay is not a string, extend lists or union via `set`; otherwise
overwrite with the overlay value.  (The `isinstance(dict1[key], set)` arm
of the source is unreachable over the Node domain, which has no sets.) -/
def mergeOne : Node → Node → Except String Node
  | .map m1, .map m2 =>
    match recursive_merge m1 m2 with
    | .ok merged => .ok (.map merged)
    | .error e => .error e
  | old, v =>
    if isIterable old && isIterable v && !(isStr v) then
      match old, v with
      | .seq l1, .seq l2 => .ok (.seq (l1 ++ l2.filter (fun x => !(l1.contains x))))
      | old', v' => pyUnion old' v'
    else .ok v
termination_by _o v => sizeOf v

/-- `recursive_merge(dict1, dict2)` of merge_filters.py: fold the overlay's
entries into the base dict in order, resolving each key conflict with
`mergeOne` and appending keys absent from the base. -/
def recursive_merge : List (String × Node) → List (String × Node) → Except String (List (String × Node))
  | d1, [] => .ok d1
  | d1, (k, v) :: rest =>
    match lookupKey d1 k with
    | none => recursive_merge (d1 ++ [(k, v)]) rest
    | some old =>
      match mergeOne old v with
      | .ok newv => recursive_merge (setKey d1 k newv) rest
      | .error e => .error e
termination_by _d d2 => sizeOf d2

end

/-- The keys removed by `strip_metadata` (combine_info.py line 24). -/
def stripKeys : List String :=
  ["failed", "failed_condition", "skipped", "skip_reason", "changed", "false_condition"]

mutual

/-- `strip_metadata(data)` of combine_info.py lines 21-29: rebuild dicts
without the reserved keys, recursing into values and list elements;
scalars are returned unchanged. -/
def strip_metadata : Node → Node
  | .map m => .map (strip_pairs m)
  | .seq l => .seq (strip_list l)
  | v => v

/-- The dict comprehension of `strip_metadata`: keep each entry whose key is
not reserved, stripping its value. -/
def strip_pairs : List (String × Node) → List (String × Node)
  | [] => []
  | (k, v) :: rest =>
    if stripKeys.contains k then strip_pairs rest
    else (k, strip_metadata v) :: strip_pairs rest

/-- The list comprehension of `strip_metadata`: strip every element. -/
def strip_list : List Node → List Node
  | [] => []
  | x :: rest => strip_metadata x :: strip_list rest

end

/-- `l.startswith(pre)` over character lists. -/
def listStartsWith : List Char → List Char → Bool
  | _, [] => true
  | [], _ :: _ => false
  | c :: cs, p :: ps => c == p && listStartsWith cs ps

/-- Python `s.startswith(pre)`. -/
def strStartsWith (s pre : String) : Bool := listStartsWith s.data pre.data

/-- The combine-filter reserved key set of `combine_info`
(combine_info.py line 17). -/
def combineReserved : List String :=
  ["failed", "failed_condition", "skipped", "skip_reason", "changed", "ansible_facts", "false_condition"]

/-- A key survives `combine_info`: not reserved and not `ansible_`-prefixed. -/
def combineAllowed (k : String) : Bool :=
  !(combineReserved.contains k) && !(strStartsWith k "ansible_")

/-- `data.update(kvs)`: fold Python dict assignment over the new entries. -/
def updateWith (data : List (String × Node)) (kvs : List (String × Node)) : List (String × Node) :=
  kvs.foldl (fun d p => setKey d p.1 p.2) data

/-- One iteration of the `combine_info` loop: a dict argument contributes
its entries with allowed keys via `data.update`, anything else is skipped.
CPython iterates `relevant_keys` in unspecified set order; the model uses
the dict's own entry order, and the lookup-level theorems are
order-independent. -/
def combineStep (data : List (String × Node)) (arg : Node) : List (String × Node) :=
  match arg with
  | .map m => updateWith data (m.filter (fun p => combineAllowed p.1))
  | _ => data

/-- `combine_info(*args)` of combine_info.py lines 12-19: fold the
arguments left to right into an initially empty dict, later arguments
overwriting earlier ones on key collision. -/
def combine_info (args : List Node) : List (String × Node) :=
  args.foldl combineStep []

/-- Specification device for the combiner: the value the last dict argument
containing `k` binds it to, scanning left to right. -/
def lastStep (k : String) (acc : Option Node) (arg : Node) : Option Node :=
  match arg with
  | Node.map m =>
    match lookupKey m k with
    | some v => some v
    | none => acc
  | _ => acc

/-- The last binding of `k` contributed by any dict argument. -/
def lastVal (args : List Node) (k : String) : Option Node :=
  args.foldl (lastStep k) none

/-- The message of the shape-check AnsibleFilterError of extract_key.py
line 24. -/
def shapeErrMsg : String :=
  "Input must be a dictionary containing an 'objects' key with a list of dictionaries."

/-- Python substring test `needle in hay`. -/
def strContains (hay needle : String) : Bool :=
  (List.range (hay.data.length + 1)).any (fun i => listStartsWith (hay.data.drop i) needle.data)

/-- Python `key in obj`: key membership for dicts, element membership for
lists, substring test for strings; a TypeError for non-iterable values. -/
def pyIn (key : String) (obj : Node) : Except String Bool :=
  match obj with
  | .map m => .ok (lookupKey m key).isSome
  | .seq l => .ok (l.contains (.str key))
  | .str s => .ok (strContains s key)
  | _ => .error "TypeError: argument is not iterable"

/-- Python `obj.get(key)`: only dicts have `.get`; any other value raises an
AttributeError.  A missing key yields None (unreachable under the `key in
obj` guard of the comprehension). -/
def pyGet (obj : Node) (key : String) : Except String Node :=
  match obj with
  | .map m => .ok ((lookupKey m key).getD .null)
  | _ => .error "AttributeError: no attribute get"

/-- The comprehension `[obj.get(key) for obj in objects if key in obj]` of
extract_key.py line 27, evaluated left to right, stopping at the first
element that raises. -/
def extractLoop (key : String) : List Node → Except String (List Node)
  | [] => .ok []
  | o :: rest =>
    match pyIn key o with
    | .error e => .error e
    | .ok true =>
      match pyGet o key with
      | .error e => .error e
      | .ok v =>
        match extractLoop key rest with
        | .ok vs => .ok (v :: vs)
        | .error e => .error e
    | .ok false => extractLoop key rest

/-- The body of the `try` block of `extract_key` (extract_key.py lines
23-27): the shape check raising an AnsibleFilterError, then the
comprehension over `data['objects']`. -/
def extract_key_inner (data : Node) (key : String) : Except String (List Node) :=
  match data with
  | .map m =>
    match lookupKey m "objects" with
    | none => .error shapeErrMsg
    | some objs =>
      if isIterable objs then extractLoop key (pyIter objs)
      else .error "TypeError: object is not iterable"
  | _ => .error shapeErrMsg

/-- `extract_key(data, key)` of extract_key.py lines 12-29: the `except
Exception` clause catches every exception raised inside the `try` block --
including the shape-check AnsibleFilterError itself -- and re-raises it as
an AnsibleFilterError whose message names the key. -/
def extract_key (data : Node) (key : String) : Except String (List Node) :=
  match extract_key_inner data key with
  | .ok v => .ok v
  | .error e => .error ("Error extracting key '" ++ key ++ "': " ++ e)

theorem dropWhile_length_le {α : Type} (p : α → Bool) (l : List α) :
    (List.dropWhile p l).length ≤ l.length := by
  induction l with
  | nil => simp [List.dropWhile]
  | cons c rest ih =>
    by_cases h : p c
    · simp only [List.dropWhile, h, List.length_cons]
      omega
    · simp [List.dropWhile, h]

/-- `[a-zA-Z0-9-]`, the character class of the GPU UUID pattern. -/
def isGpuChar (c : Char) : Bool := c.isAlphanum || c = '-'

/-- `re.sub(r'(GPU-)([a-zA-Z0-9-]+)', r'\1XXXXXX', value)` over character
lists: scan left to right; at the literal `GPU-` followed by at least one
class character, emit `GPU-XXXXXX`, drop the greedy run and continue after
it; otherwise advance one character. -/
def gpuScan : List Char → List Char
  | 'G' :: 'P' :: 'U' :: '-' :: c :: rest =>
    if isGpuChar c then
      'G' :: 'P' :: 'U' :: '-' :: 'X' :: 'X' :: 'X' :: 'X' :: 'X' :: 'X' ::
        gpuScan (List.dropWhile isGpuChar (c :: rest))
    else 'G' :: gpuScan ('P' :: 'U' :: '-' :: c :: rest)
  | c :: rest => c :: gpuScan rest
  | [] => []
termination_by l => l.length
decreasing_by
  · have h2 := dropWhile_length_le isGpuChar (c :: rest)
    simp only [List.length_cons] at h2 ⊢
    omega
  · simp only [List.length_cons]; omega
  · simp only [List.length_cons]; omega

/-- The GPU UUID substitution of obfuscate.py line 15. -/
def gpuSub (s : String) : String := String.mk (gpuScan s.data)

/-- `re.sub(r'/home/[^/]+', r'/home/[OBFUSCATED]', value)` over character
lists: at the literal `/home/` followed by at least one non-slash
character, emit the replacement and drop the greedy non-slash run. -/
def homeScan : List Char → List Char
  | '/' :: 'h' :: 'o' :: 'm' :: 'e' :: '/' :: c :: rest =>
    if c == '/' then '/' :: homeScan ('h' :: 'o' :: 'm' :: 'e' :: '/' :: c :: rest)
    else
      '/' :: 'h' :: 'o' :: 'm' :: 'e' :: '/' :: '[' :: 'O' :: 'B' :: 'F' :: 'U' :: 'S' ::
        'C' :: 'A' :: 'T' :: 'E' :: 'D' :: ']' ::
        homeScan (List.dropWhile (fun x => !(x == '/')) (c :: rest))
  | c :: rest => c :: homeScan rest
  | [] => []
termination_by l => l.length
decreasing_by
  · simp only [List.length_cons]; omega
  · have h2 := dropWhile_length_le (fun x => !(x == '/')) (c :: rest)
    simp only [List.length_cons] at h2 ⊢
    omega
  · simp only [List.length_cons]; omega

/-- The home-path substitution of obfuscate.py line 25. -/
def homeSub (s : String) : String := String.mk (homeScan s.data)

/-- Python `key.lower()` (the keys are ASCII identifiers). -/
def keyLower (k : String) : String := String.mk (k.data.map Char.toLower)

/-- The case-insensitive sensitive key list of obfuscate.py line 17. -/
def sensitiveKeys : List String := ["username", "user", "hostname", "user_id"]

mutual

/-- `obfuscate_value(value, key=None)` of obfuscate.py lines 12-29: on a
string, apply the GPU UUID substitution, then at most one key-dependent
rule (the `if key and ...` guard requires a non-empty key); recurse into
dict values with their keys and into list elements with no key; other
values pass through. -/
def obfuscate_value : Node → Option String → Node
  | .str s, key =>
    let s1 := gpuSub s
    match key with
    | some k =>
      if k != "" && sensitiveKeys.contains (keyLower k) then .str "[OBFUSCATED]"
      else if k = "wan_address" then .str "[OBFUSCATED]"
      else if k = "path" then .str (homeSub s1)
      else .str s1
    | none => .str s1
  | .map m, _ => .map (obfuscate_pairs m)
  | .seq l, _ => .seq (obfuscate_list l)
  | v, _ => v

/-- The dict comprehension of `obfuscate_value`: each value is obfuscated
under its own key. -/
def obfuscate_pairs : List (String × Node) → List (String × Node)
  | [] => []
  | (k, v) :: rest => (k, obfuscate_value v (some k)) :: obfuscate_pairs rest

/-- The list comprehension of `obfuscate_value`: elements are obfuscated
with no key context. -/
def obfuscate_list : List Node → List Node
  | [] => []
  | x :: rest => obfuscate_value x none :: obfuscate_list rest

end

/-- The loop of `LookupModule.run` (obfuscate.py lines 31-36): dict terms
are obfuscated from a keyless root, all other terms pass through as-is. -/
def obfuscate_run (terms : List Node) : List Node :=
  terms.map (fun t =>
    match t with
    | .map m => obfuscate_value (.map m) none
    | _ => t)

/-! Helper lemmas about dict lookup, assignment and the merge loop. -/

theorem lookupKey_setKey_self (d : List (String × Node)) (k : String) (v : Node) :
    lookupKey (setKey d k v) k = some v := by
  induction d with
  | nil => simp [setKey, lookupKey]
  | cons p rest ih =>
    obtain ⟨k', v'⟩ := p
    by_cases h : k' = k
    · simp [setKey, lookupKey, h]
    · simp [setKey, lookupKey, h, ih]

theorem lookupKey_setKey_ne (d : List (String × Node)) (k k2 : String) (v : Node)
    (h : k ≠ k2) : lookupKey (setKey d k v) k2 = lookupKey d k2 := by
  induction d with
  | nil => simp [setKey, lookupKey, h]
  | cons p rest ih =>
    obtain ⟨k', v'⟩ := p
    by_cases hk : k' = k
    · subst hk; simp [setKey, lookupKey, h]
    · simp only [setKey, if_neg hk]
      by_cases hk2 : k' = k2
      · simp [lookupKey, hk2]
      · simp [lookupKey, hk2, ih]

theorem lookupKey_append (d d2 : List (String × Node)) (k : String) :
    lookupKey (d ++ d2) k = (lookupKey d k).or (lookupKey d2 k) := by
  induction d with
  | nil => simp [lookupKey]
  | cons p rest ih =>
    obtain ⟨k', v'⟩ := p
    by_cases hk : k' = k <;> simp [lookupKey, hk, ih]

theorem lookupKey_append_self (d : List (String × Node)) (k : String) (v : Node)
    (h : lookupKey d k = none) : lookupKey (d ++ [(k, v)]) k = some v := by
  simp [lookupKey_append, h, lookupKey]

theorem lookupKey_append_other (d : List (String × Node)) (k k2 : String) (v : Node)
    (h : k2 ≠ k) : lookupKey (d ++ [(k2, v)]) k = lookupKey d k := by
  simp [lookupKey_append, lookupKey, h]

theorem lookupKey_eq_none_of_not_mem (d : List (String × Node)) (k : String)
    (h : k ∉ d.map Prod.fst) : lookupKey d k = none := by
  induction d with
  | nil => simp [lookupKey]
  | cons p rest ih =>
    obtain ⟨k', v'⟩ := p
    simp only [List.map_cons, List.mem_cons] at h
    push_neg at h
    simp only [lookupKey, if_neg (Ne.symm h.1)]
    exact ih h.2

theorem lookupKey_isSome_setKey (d : List (String × Node)) (k k2 : String) (v : Node)
    (h : (lookupKey d k).isSome) : (lookupKey (setKey d k2 v) k).isSome := by
  by_cases hk : k2 = k
  · subst hk; simp [lookupKey_setKey_self]
  · rw [lookupKey_setKey_ne d k2 k v hk]; exact h

theorem lookupKey_isSome_append (d : List (String × Node)) (p : String × Node) (k : String)
    (h : (lookupKey d k).isSome) : (lookupKey (d ++ [p]) k).isSome := by
  rw [lookupKey_append]
  cases hl : lookupKey d k with
  | none => rw [hl] at h; simp at h
  | some w => simp [Option.or]

theorem merge_lookup_of_not_mem :
    ∀ (d2 d1 res : List (String × Node)) (k : String),
      lookupKey d2 k = none → recursive_merge d1 d2 = .ok res →
      lookupKey res k = lookupKey d1 k := by
  intro d2
  induction d2 with
  | nil =>
    intro d1 res k _ hm
    simp only [recursive_merge] at hm
    cases hm
    rfl
  | cons p rest ih =>
    intro d1 res k hk hm
    obtain ⟨k0, v0⟩ := p
    have hk0 : k0 ≠ k := by
      intro h; subst h; simp [lookupKey] at hk
    have hkrest : lookupKey rest k = none := by
      simpa [lookupKey, if_neg hk0] using hk
    simp only [recursive_merge] at hm
    split at hm
    · have hres := ih (d1 ++ [(k0, v0)]) res k hkrest hm
      rw [hres, lookupKey_append_other d1 k k0 v0 hk0]
    · rename_i old hl
      split at hm
      · rename_i newv hmo
        have hres := ih (setKey d1 k0 newv) res k hkrest hm
        rw [hres, lookupKey_setKey_ne d1 k0 k newv hk0]
      · cases hm

theorem merge_lookup_of_new :
    ∀ (d2 d1 res : List (String × Node)) (k : String) (v : Node),
      (d2.map Prod.fst).Nodup →
      lookupKey d1 k = none → lookupKey d2 k = some v →
      recursive_merge d1 d2 = .ok res → lookupKey res k = some v := by
  intro d2
  induction d2 with
  | nil => intro d1 res k v _ _ hk _; simp [lookupKey] at hk
  | cons p rest ih =>
    intro d1 res k v hnd h1 hk hm
    obtain ⟨k0, v0⟩ := p
    simp only [List.map_cons, List.nodup_cons] at hnd
    obtain ⟨hk0nm, hndrest⟩ := hnd
    simp only [recursive_merge] at hm
    by_cases hkk : k0 = k
    · subst hkk
      have hv : v0 = v := by simpa [lookupKey] using hk
      subst hv
      split at hm
      · have hrest : lookupKey rest k0 = none :=
          lookupKey_eq_none_of_not_mem rest k0 hk0nm
        have hres := merge_lookup_of_not_mem rest (d1 ++ [(k0, v0)]) res k0 hrest hm
        rw [hres, lookupKey_append_self d1 k0 v0 h1]
      · rename_i old hl
        rw [h1] at hl; cases hl
    · have hkrest : lookupKey rest k = some v := by
        simpa [lookupKey, if_neg hkk] using hk
      split at hm
      · have h1' : lookupKey (d1 ++ [(k0, v0)]) k = none := by
          rw [lookupKey_append_other d1 k k0 v0 hkk, h1]
        exact ih _ res k v hndrest h1' hkrest hm
      · rename_i old hl
        split at hm
        · rename_i newv hmo
          have h1' : lookupKey (setKey d1 k0 newv) k = none := by
            rw [lookupKey_setKey_ne d1 k0 k newv hkk, h1]
          exact ih _ res k v hndrest h1' hkrest hm
        · cases hm

theorem merge_lookup_of_both :
    ∀ (d2 d1 res : List (String × Node)) (k : String) (old v : Node),
      (d2.map Prod.fst).Nodup →
      lookupKey d1 k = some old → lookupKey d2 k = some v →
      recursive_merge d1 d2 = .ok res →
      ∃ w, mergeOne old v = .ok w ∧ lookupKey res k = some w := by
  intro d2
  induction d2 with
  | nil => intro d1 res k old v _ _ hk _; simp [lookupKey] at hk
  | cons p rest ih =>
    intro d1 res k old v hnd h1 hk hm
    obtain ⟨k0, v0⟩ := p
    simp only [List.map_cons, List.nodup_cons] at hnd
    obtain ⟨hk0nm, hndrest⟩ := hnd
    simp only [recursive_merge] at hm
    by_cases hkk : k0 = k
    · subst hkk
      have hv : v0 = v := by simpa [lookupKey] using hk
      subst hv
      split at hm
      · rename_i hl
        rw [h1] at hl; cases hl
      · rename_i old' hl
        rw [h1] at hl
        injection hl with hinj
        subst hinj
        split at hm
        · rename_i newv hmo
          refine ⟨newv, hmo, ?_⟩
          have hrest : lookupKey rest k0 = none :=
            lookupKey_eq_none_of_not_mem rest k0 hk0nm
          have hres := merge_lookup_of_not_mem rest (setKey d1 k0 newv) res k0 hrest hm
          rw [hres, lookupKey_setKey_self]
        · cases hm
    · have hkrest : lookupKey rest k = some v := by
        simpa [lookupKey, if_neg hkk] using hk
      split at hm
      · have h1' : lookupKey (d1 ++ [(k0, v0)]) k = some old := by
          rw [lookupKey_append_other d1 k k0 v0 hkk, h1]
        exact ih _ res k old v hndrest h1' hkrest hm
      · rename_i oldh hl
        split at hm
        · rename_i newv hmo
          have h1' : lookupKey (setKey d1 k0 newv) k = some old := by
            rw [lookupKey_setKey_ne d1 k0 k newv hkk, h1]
          exact ih _ res k old v hndrest h1' hkrest hm
        · cases hm

theorem merge_isSome_of_base :
    ∀ (d2 d1 res : List (String × Node)) (k : String),
      (lookupKey d1 k).isSome → recursive_merge d1 d2 = .ok res →
      (lookupKey res k).isSome := by
  intro d2
  induction d2 with
  | nil =>
    intro d1 res k h1 hm
    simp only [recursive_merge] at hm
    cases hm; exact h1
  | cons p rest ih =>
    intro d1 res k h1 hm
    obtain ⟨k0, v0⟩ := p
    simp only [recursive_merge] at hm
    split at hm
    · exact ih _ res k (lookupKey_isSome_append d1 (k0, v0) k h1) hm
    · rename_i old hl
      split at hm
      · rename_i newv hmo
        exact ih _ res k (lookupKey_isSome_setKey d1 k k0 newv h1) hm
      · cases hm

theorem pySet_error (x : Node) (e : String) (h : pySet x = .error e) : e = unhashableMsg := by
  unfold pySet at h
  split at h
  · cases h
  · injection h with h2
    exact h2.symm

theorem mergeOne_seq_seq (l1 l2 : List Node) :
    mergeOne (Node.seq l1) (Node.seq l2)
      = .ok (Node.seq (l1 ++ l2.filter (fun x => !(l1.contains x)))) := by
  simp [mergeOne, isIterable, isStr]

theorem mergeOne_overwrite (old v : Node)
    (hnm : ¬(isMapping old = true ∧ isMapping v = true))
    (hcond : isIterable old = false ∨ isIterable v = false ∨ isStr v = true) :
    mergeOne old v = .ok v := by
  cases old <;> cases v <;>
    simp_all [mergeOne, isIterable, isStr, isMapping]

theorem pyUnion_error (a b : Node) (e : String) (h : pyUnion a b = .error e) :
    e = unhashableMsg := by
  unfold pyUnion at h
  split at h
  · injection h with h2
    rename_i hps
    exact h2 ▸ pySet_error _ _ hps
  · split at h
    · injection h with h2
      rename_i hps
      exact h2 ▸ pySet_error _ _ hps
    · cases h

theorem mergeOne_error_shape (old v : Node) (e : String) (he : mergeOne old v = .error e) :
    (∃ m1 m2, old = Node.map m1 ∧ v = Node.map m2 ∧ recursive_merge m1 m2 = .error e) ∨
      e = unhashableMsg := by
  cases old <;> cases v <;>
    simp only [mergeOne, isIterable, isStr, Bool.and_true, Bool.and_false, Bool.true_and,
      Bool.false_and, Bool.not_true, Bool.not_false, Bool.and_self, if_true, if_false,
      ite_true, ite_false] at he <;>
    first
      | cases he
      | (rename_i m1 m2
         split at he
         · cases he
         · injection he with h2
           exact Or.inl ⟨m1, m2, rfl, rfl, h2 ▸ (by assumption)⟩)
      | exact Or.inr (pyUnion_error _ _ _ he)

theorem merge_error_unhashable_aux :
    ∀ (n : ℕ) (d2 d1 : List (String × Node)) (e : String), sizeOf d2 ≤ n →
      recursive_merge d1 d2 = .error e → e = unhashableMsg := by
  intro n
  induction n using Nat.strong_induction_on with
  | _ n ih =>
    intro d2 d1 e hsz hm
    cases d2 with
    | nil => simp only [recursive_merge] at hm; cases hm
    | cons p rest =>
      obtain ⟨k, v⟩ := p
      have hrest : sizeOf rest < sizeOf ((k, v) :: rest) := by
        simp only [List.cons.sizeOf_spec]
        omega
      simp only [recursive_merge] at hm
      split at hm
      · have hlt : sizeOf rest < n := by omega
        exact ih (sizeOf rest) hlt rest _ e le_rfl hm
      · rename_i old hl
        split at hm
        · rename_i newv hmo
          have hlt : sizeOf rest < n := by omega
          exact ih (sizeOf rest) hlt rest _ e le_rfl hm
        · rename_i e0 hmo
          injection hm with h2
          rcases mergeOne_error_shape old v e0 hmo with ⟨m1, m2, _, hv, hr⟩ | hmsg
          · subst hv
            have hm2 : sizeOf m2 < sizeOf ((k, Node.map m2) :: rest) := by
              simp only [List.cons.sizeOf_spec, Prod.mk.sizeOf_spec, Node.map.sizeOf_spec]
              omega
            have hlt : sizeOf m2 < n := by omega
            exact h2 ▸ ih (sizeOf m2) hlt m2 m1 e0 le_rfl hr
          · exact h2 ▸ hmsg

/-- Claim C1, amended (theorem): `recursive_merge` is a total function over
the Node domain (the Lean model is total by construction), and the only
exception it can propagate is the TypeError raised by the `set()` coercion
of the non-list collection-union branch when a side holds an unhashable
element; every error outcome carries exactly that message. -/
theorem merge_error_unhashable (d1 d2 : List (String × Node)) (e : String)
    (hm : recursive_merge d1 d2 = .error e) : e = unhashableMsg :=
  merge_error_unhashable_aux (sizeOf d2) d2 d1 e le_rfl hm

/-- Claim C1 (counterexample): contrary to the claim, there is an input in
the Node domain on which the non-list collection-union branch fails:
merging a mapping value with a sequence-of-mappings value under the same
key reaches `list(set(dict1[key]) | set(value))`, where `set()` raises a
TypeError on the unhashable dict element. -/
theorem merge_raises_on_unhashable_union :
    recursive_merge [("k", map [("a", num 1)])] [("k", seq [map [("b", num 2)]])]
      = .error unhashableMsg := by
  simp [recursive_merge, mergeOne, lookupKey, isIterable, isStr, pyUnion, pySet,
    pyIter, isHashable]

/-- Claim C1 (witness): a concrete error outcome, whose message the amended
theorem pins to the unhashable-type TypeError. -/
theorem merge_error_unhashable_witness :
    recursive_merge [("k", str "a")] [("k", seq [seq []])]
        = .error "TypeError: unhashable type" ∧
      "TypeError: unhashable type" = unhashableMsg := by
  have hm : recursive_merge [("k", str "a")] [("k", seq [seq []])]
      = .error "TypeError: unhashable type" := by
    simp [recursive_merge, mergeOne, lookupKey, isIterable, isStr, pyUnion, pySet,
      pyIter, isHashable, dedupFirst, unhashableMsg]
  exact ⟨hm, (merge_error_unhashable _ _ _ hm).symm ▸ rfl⟩

/-- Claim C2 (counterexample): on a type mismatch of a string base value
against a list overlay value the overlay does not win: the collection-union
branch runs (the string-exclusion in the source tests only the overlay
side), so the key is not bound to the overlay value. -/
theorem merge_mismatch_not_overwritten :
    recursive_merge [("k", str "ab")] [("k", seq [num 1])]
      ≠ Except.ok [("k", seq [num 1])] := by
  have h : recursive_merge [("k", str "ab")] [("k", seq [num 1])]
      = .ok [("k", seq [str "a", str "b", num 1])] := by
    simp [recursive_merge, mergeOne, lookupKey, setKey, isIterable, isStr, pyUnion, pySet,
      pyIter, isHashable, dedupFirst, List.filter, nodeBeq]
  rw [h]
  intro hc
  injection hc with h2
  simp at h2

/-- Claim C2, amended (theorem): for a key present in both operands whose
values are not both mappings, the overlay value wins unconditionally
exactly when at least one side is a non-iterable scalar (null, boolean,
number) or the overlay value is a string; mismatches of two iterables with
a non-string overlay (e.g. mapping versus sequence, or string base versus
list overlay) go to the collection-union branch instead. -/
theorem merge_overwrite_semantics :
    ∀ (d1 d2 res : List (String × Node)) (k : String) (old v : Node),
      (d2.map Prod.fst).Nodup →
      lookupKey d1 k = some old → lookupKey d2 k = some v →
      recursive_merge d1 d2 = .ok res →
      ¬(isMapping old = true ∧ isMapping v = true) →
      (isIterable old = false ∨ isIterable v = false ∨ isStr v = true) →
      lookupKey res k = some v := by
  intro d1 d2 res k old v hnd h1 hk hm hnm hcond
  obtain ⟨w, hw, hres⟩ := merge_lookup_of_both d2 d1 res k old v hnd h1 hk hm
  rw [mergeOne_overwrite old v hnm hcond] at hw
  injection hw with h2
  rw [hres, ← h2]

/-- Claim C2 (witness): two scalar values under the same key, the overlay
winning. -/
theorem merge_overwrite_semantics_witness :
    recursive_merge [("x", num 1)] [("x", num 2)] = .ok [("x", num 2)] ∧
      lookupKey [("x", num 2)] "x" = some (num 2) := by
  have hm : recursive_merge [("x", num 1)] [("x", num 2)] = .ok [("x", num 2)] := by
    simp [recursive_merge, mergeOne, lookupKey, setKey, isIterable, isStr]
  exact ⟨hm, merge_overwrite_semantics _ _ _ "x" (num 1) (num 2) (by simp)
    (by simp [lookupKey]) (by simp [lookupKey]) hm (by simp [isMapping])
    (Or.inl (by simp [isIterable]))⟩

/-- Claim C4 (theorem): a successful merge loses no key: keys only in the
overlay look up to the overlay's value, keys absent from the overlay keep
the base's value, a key bound to mappings on both sides is bound to their
recursive merge, and every key of either operand is present in the
result. -/
theorem merge_never_loses_keys :
    ∀ (d1 d2 res : List (String × Node)),
      (d2.map Prod.fst).Nodup →
      recursive_merge d1 d2 = .ok res →
      (∀ k, lookupKey d2 k = none → lookupKey res k = lookupKey d1 k) ∧
      (∀ k v, lookupKey d1 k = none → lookupKey d2 k = some v → lookupKey res k = some v) ∧
      (∀ k m1 m2, lookupKey d1 k = some (Node.map m1) → lookupKey d2 k = some (Node.map m2) →
          ∃ sub, recursive_merge m1 m2 = .ok sub ∧ lookupKey res k = some (Node.map sub)) ∧
      (∀ k, (lookupKey d1 k).isSome ∨ (lookupKey d2 k).isSome → (lookupKey res k).isSome) := by
  intro d1 d2 res hnd hm
  refine ⟨fun k hk => merge_lookup_of_not_mem d2 d1 res k hk hm,
          fun k v h1 hk => merge_lookup_of_new d2 d1 res k v hnd h1 hk hm,
          fun k m1 m2 h1 hk => ?_, fun k hor => ?_⟩
  · obtain ⟨w, hw, hres⟩ := merge_lookup_of_both d2 d1 res k (Node.map m1) (Node.map m2)
      hnd h1 hk hm
    simp only [mergeOne] at hw
    split at hw
    · rename_i merged hmm2
      injection hw with h2
      exact ⟨merged, hmm2, by rw [hres, ← h2]⟩
    · cases hw
  · rcases hor with h1 | h2
    · exact merge_isSome_of_base d2 d1 res k h1 hm
    · cases hl : lookupKey d1 k with
      | some old => exact merge_isSome_of_base d2 d1 res k (by simp [hl]) hm
      | none =>
        cases hv : lookupKey d2 k with
        | none => rw [hv] at h2; simp at h2
        | some v =>
          rw [merge_lookup_of_new d2 d1 res k v hnd hl hv hm]
          simp

/-- Claim C4 (witness): merging two singleton dicts with disjoint keys at
concrete inputs. -/
theorem merge_never_loses_keys_witness :
    ([("b", num 2)].map Prod.fst).Nodup ∧
      recursive_merge [("a", num 1)] [("b", num 2)] = .ok [("a", num 1), ("b", num 2)] ∧
      lookupKey [("a", num 1), ("b", num 2)] "a" = lookupKey [("a", num 1)] "a" := by
  have hnd : (([("b", Node.num 2)]).map Prod.fst).Nodup := by simp
  have hm : recursive_merge [("a", num 1)] [("b", num 2)] = .ok [("a", num 1), ("b", num 2)] := by
    simp [recursive_merge, lookupKey]
  exact ⟨hnd, hm, (merge_never_loses_keys _ _ _ hnd hm).1 "a" (by simp [lookupKey])⟩

/-- Claim C5 (theorem): when both values under a key are lists, the merge
binds the key to the base list followed by exactly those overlay elements
not already present (by equality) in the base list, in overlay order; in
particular merging l: [1,2] with l: [2,3] yields l: [1,2,3]. -/
theorem merge_list_union_semantics :
    (∀ (d1 d2 res : List (String × Node)) (k : String) (l1 l2 : List Node),
        (d2.map Prod.fst).Nodup →
        lookupKey d1 k = some (Node.seq l1) → lookupKey d2 k = some (Node.seq l2) →
        recursive_merge d1 d2 = .ok res →
        lookupKey res k = some (Node.seq (l1 ++ l2.filter (fun x => !(l1.contains x))))) ∧
      (∀ (l1 l2 : List Node) (x : Node),
        x ∈ l2.filter (fun y => !(l1.contains y)) ↔ x ∈ l2 ∧ x ∉ l1) ∧
      recursive_merge [("l", seq [num 1, num 2])] [("l", seq [num 2, num 3])]
        = .ok [("l", seq [num 1, num 2, num 3])] := by
  refine ⟨?_, ?_, ?_⟩
  · intro d1 d2 res k l1 l2 hnd h1 hk hm
    obtain ⟨w, hw, hres⟩ := merge_lookup_of_both d2 d1 res k _ _ hnd h1 hk hm
    rw [mergeOne_seq_seq] at hw
    injection hw with h2
    rw [hres, ← h2]
  · intro l1 l2 x
    simp [List.mem_filter]
  · simp [recursive_merge, mergeOne, lookupKey, setKey, isIterable, isStr, List.filter,
      nodeBeq]

/-- Claim C5 (witness): base l: [5], overlay l: [5,6]; the overlay element 5
is already present and only 6 is appended. -/
theorem merge_list_union_semantics_witness :
    recursive_merge [("l", seq [num 5])] [("l", seq [num 5, num 6])]
        = .ok [("l", seq [num 5, num 6])] ∧
      lookupKey [("l", seq [num 5, num 6])] "l"
        = some (Node.seq ([num 5] ++ [num 5, num 6].filter (fun x => !([num 5].contains x)))) := by
  have hm : recursive_merge [("l", seq [num 5])] [("l", seq [num 5, num 6])]
      = .ok [("l", seq [num 5, num 6])] := by
    simp [recursive_merge, mergeOne, lookupKey, setKey, isIterable, isStr, List.filter, nodeBeq]
  exact ⟨hm, (merge_list_union_semantics).1 _ _ _ "l" [num 5] [num 5, num 6] (by simp)
    (by simp [lookupKey]) (by simp [lookupKey]) hm⟩

/-- Claim C10 (theorem): the membership filter of the list-extend branch is
evaluated against the base list as it was before any append (the
comprehension is built before `extend` runs), so an element occurring twice
in the overlay and absent from the base is appended twice: merging l: [1]
with l: [2,2] produces l: [1,2,2]. -/
theorem merge_duplicates_overlay_elements :
    recursive_merge [("l", seq [num 1])] [("l", seq [num 2, num 2])]
      = .ok [("l", seq [num 1, num 2, num 2])] := by
  simp [recursive_merge, mergeOne, lookupKey, setKey, isIterable, isStr, List.filter, nodeBeq]

/-! Helper lemmas for the stripper and the combiner. -/

theorem strip_pairs_lookup_removed :
    ∀ (m : List (String × Node)) (k : String), k ∈ stripKeys →
      lookupKey (strip_pairs m) k = none := by
  intro m
  induction m with
  | nil => intro k _; simp [strip_pairs, lookupKey]
  | cons p rest ih =>
    intro k hk
    obtain ⟨k0, v0⟩ := p
    by_cases h0 : stripKeys.contains k0
    · simp only [strip_pairs, if_pos h0]
      exact ih k hk
    · have hne : k0 ≠ k := by
        intro hh
        subst hh
        exact h0 (List.elem_iff.mpr hk)
      simp only [strip_pairs, if_neg h0, lookupKey, if_neg hne]
      exact ih k hk

theorem strip_pairs_lookup_kept :
    ∀ (m : List (String × Node)) (k : String), k ∉ stripKeys →
      lookupKey (strip_pairs m) k = Option.map strip_metadata (lookupKey m k) := by
  intro m
  induction m with
  | nil => intro k _; simp [strip_pairs, lookupKey]
  | cons p rest ih =>
    intro k hk
    obtain ⟨k0, v0⟩ := p
    by_cases h0 : stripKeys.contains k0
    · have hne : k0 ≠ k := by
        intro hh
        subst hh
        exact hk (List.elem_iff.mp h0)
      simp only [strip_pairs, if_pos h0, lookupKey, if_neg hne]
      exact ih k hk
    · by_cases hke : k0 = k
      · subst hke
        simp [strip_pairs, hk, lookupKey]
      · simp only [strip_pairs, if_neg h0, lookupKey, if_neg hke]
        exact ih k hk

theorem strip_list_map : ∀ l : List Node, strip_list l = l.map strip_metadata := by
  intro l
  induction l with
  | nil => simp [strip_list]
  | cons x rest ih => simp [strip_list, ih]

/-- Claim C6 (theorem): `strip_metadata` removes exactly the entries with a
strip-reserved key -- failed, failed_condition, skipped, skip_reason,
changed, false_condition -- at every depth (the model is purely functional,
so the input is never mutated): reserved keys look up to nothing in a
stripped mapping, every other key keeps its recursively stripped value,
sequences map elementwise keeping order and length, scalars are unchanged,
and no `ansible_`-prefixed key (including ansible_facts) is in the strip
set. -/
theorem strip_metadata_spec :
    (∀ (m : List (String × Node)) (k : String), k ∈ stripKeys →
        lookupKey (strip_pairs m) k = none) ∧
    (∀ (m : List (String × Node)) (k : String), k ∉ stripKeys →
        lookupKey (strip_pairs m) k = Option.map strip_metadata (lookupKey m k)) ∧
    (∀ m, strip_metadata (Node.map m) = Node.map (strip_pairs m)) ∧
    (∀ l, strip_metadata (Node.seq l) = Node.seq (l.map strip_metadata) ∧
        (l.map strip_metadata).length = l.length) ∧
    (strip_metadata Node.null = Node.null ∧ (∀ b, strip_metadata (Node.bool b) = Node.bool b) ∧
      (∀ n, strip_metadata (Node.num n) = Node.num n) ∧
      (∀ s, strip_metadata (Node.str s) = Node.str s)) ∧
    (∀ k : String, strStartsWith k "ansible_" = true → k ∉ stripKeys) ∧
    strip_metadata (map [("changed", bool true),
        ("nested", map [("failed", bool false), ("ok", num 1)])])
      = map [("nested", map [("ok", num 1)])] := by
  refine ⟨strip_pairs_lookup_removed, strip_pairs_lookup_kept, fun m => rfl,
    fun l => ⟨by simp [strip_metadata, strip_list_map], by simp⟩,
    ⟨rfl, fun b => rfl, fun n => rfl, fun s => rfl⟩,
    ?_, by decide⟩
  · intro k h hk
    fin_cases hk <;> exact absurd h (by decide)

/-- Claim C6 (witness): the reserved key `changed` is removed from a
concrete mapping, and a kept key holds its stripped value. -/
theorem strip_metadata_spec_witness :
    ("changed" ∈ stripKeys ∧
        lookupKey (strip_pairs [("changed", bool true), ("ok", num 1)]) "changed" = none) ∧
      ("ok" ∉ stripKeys ∧
        lookupKey (strip_pairs [("changed", bool true), ("ok", num 1)]) "ok"
          = Option.map strip_metadata (lookupKey [("changed", bool true), ("ok", num 1)] "ok")) :=
  ⟨⟨by decide, strip_metadata_spec.1 _ "changed" (by decide)⟩,
   ⟨by decide, strip_metadata_spec.2.1 _ "ok" (by decide)⟩⟩

theorem lookupKey_updateWith :
    ∀ (kvs data : List (String × Node)) (k : String), (kvs.map Prod.fst).Nodup →
      lookupKey (updateWith data kvs) k
        = match lookupKey kvs k with
          | some v => some v
          | none => lookupKey data k := by
  intro kvs
  induction kvs with
  | nil => intro data k _; simp [updateWith, lookupKey]
  | cons p rest ih =>
    intro data k hnd
    obtain ⟨k0, v0⟩ := p
    simp only [List.map_cons, List.nodup_cons] at hnd
    obtain ⟨hnm, hndr⟩ := hnd
    have hstep : updateWith data ((k0, v0) :: rest) = updateWith (setKey data k0 v0) rest := rfl
    rw [hstep, ih (setKey data k0 v0) k hndr]
    by_cases hke : k0 = k
    · subst hke
      rw [lookupKey_eq_none_of_not_mem rest k0 hnm]
      simp [lookupKey, lookupKey_setKey_self]
    · simp only [lookupKey, if_neg hke]
      cases lookupKey rest k with
      | some v => rfl
      | none => simp [lookupKey_setKey_ne data k0 k v0 hke]

theorem lookupKey_updateWith_none :
    ∀ (kvs data : List (String × Node)) (k : String), lookupKey kvs k = none →
      lookupKey (updateWith data kvs) k = lookupKey data k := by
  intro kvs
  induction kvs with
  | nil => intro data k _; rfl
  | cons p rest ih =>
    intro data k h
    obtain ⟨k0, v0⟩ := p
    have hne : k0 ≠ k := by
      intro hh; subst hh; simp [lookupKey] at h
    have hr : lookupKey rest k = none := by simpa [lookupKey, if_neg hne] using h
    have hstep : updateWith data ((k0, v0) :: rest) = updateWith (setKey data k0 v0) rest := rfl
    rw [hstep, ih (setKey data k0 v0) k hr, lookupKey_setKey_ne data k0 k v0 hne]

theorem lookupKey_filter_allowed (m : List (String × Node)) (k : String)
    (hk : combineAllowed k = true) :
    lookupKey (m.filter (fun p => combineAllowed p.1)) k = lookupKey m k := by
  induction m with
  | nil => simp [lookupKey]
  | cons p rest ih =>
    obtain ⟨k0, v0⟩ := p
    by_cases hke : k0 = k
    · subst hke
      simp [List.filter, hk, lookupKey]
    · by_cases ha : combineAllowed k0
      · simp only [List.filter, ha, lookupKey, if_neg hke]
        exact ih
      · simp only [List.filter, Bool.not_eq_true] at ha ⊢
        rw [ha]
        simp only [lookupKey, if_neg hke]
        exact ih

theorem lookupKey_filter_disallowed (m : List (String × Node)) (k : String)
    (hk : combineAllowed k = false) :
    lookupKey (m.filter (fun p => combineAllowed p.1)) k = none := by
  induction m with
  | nil => simp [lookupKey]
  | cons p rest ih =>
    obtain ⟨k0, v0⟩ := p
    by_cases hke : k0 = k
    · subst hke
      simp only [List.filter, hk]
      exact ih
    · by_cases ha : combineAllowed k0
      · simp only [List.filter, ha, lookupKey, if_neg hke]
        exact ih
      · simp only [List.filter, Bool.not_eq_true] at ha ⊢
        rw [ha]
        exact ih

theorem nodup_filter_keys (m : List (String × Node)) (h : (m.map Prod.fst).Nodup) :
    ((m.filter (fun p => combineAllowed p.1)).map Prod.fst).Nodup :=
  ((List.filter_sublist m).map Prod.fst).nodup h

theorem combine_loop_allowed :
    ∀ (args : List Node) (data : List (String × Node)) (k : String),
      combineAllowed k = true →
      (∀ m, Node.map m ∈ args → (m.map Prod.fst).Nodup) →
      lookupKey (args.foldl combineStep data) k = args.foldl (lastStep k) (lookupKey data k) := by
  intro args
  induction args with
  | nil => intro data k _ _; rfl
  | cons arg rest ih =>
    intro data k hk hn
    have hstep : lookupKey (combineStep data arg) k = lastStep k (lookupKey data k) arg := by
      cases arg with
      | map m =>
        have hnm : (m.map Prod.fst).Nodup := hn m (by simp)
        simp only [combineStep, lastStep]
        rw [lookupKey_updateWith _ _ _ (nodup_filter_keys m hnm),
          lookupKey_filter_allowed m k hk]
      | null => rfl
      | bool b => rfl
      | num n => rfl
      | str s => rfl
      | seq l => rfl
    calc lookupKey ((arg :: rest).foldl combineStep data) k
        = lookupKey (rest.foldl combineStep (combineStep data arg)) k := rfl
      _ = rest.foldl (lastStep k) (lookupKey (combineStep data arg) k) :=
          ih _ k hk (fun m hm => hn m (List.mem_cons_of_mem _ hm))
      _ = rest.foldl (lastStep k) (lastStep k (lookupKey data k) arg) := by rw [hstep]
      _ = (arg :: rest).foldl (lastStep k) (lookupKey data k) := rfl

theorem combine_loop_disallowed :
    ∀ (args : List Node) (data : List (String × Node)) (k : String),
      combineAllowed k = false →
      lookupKey (args.foldl combineStep data) k = lookupKey data k := by
  intro args
  induction args with
  | nil => intro data k _; rfl
  | cons arg rest ih =>
    intro data k hk
    have hstep : lookupKey (combineStep data arg) k = lookupKey data k := by
      cases arg with
      | map m =>
        simp only [combineStep]
        exact lookupKey_updateWith_none _ _ _ (lookupKey_filter_disallowed m k hk)
      | null => rfl
      | bool b => rfl
      | num n => rfl
      | str s => rfl
      | seq l => rfl
    calc lookupKey ((arg :: rest).foldl combineStep data) k
        = lookupKey (rest.foldl combineStep (combineStep data arg)) k := rfl
      _ = lookupKey (combineStep data arg) k := ih _ k hk
      _ = lookupKey data k := hstep

theorem combine_skips_non_mappings :
    ∀ (args : List Node) (data : List (String × Node)),
      args.foldl combineStep data = (args.filter (fun a => isMapping a)).foldl combineStep data := by
  intro args
  induction args with
  | nil => intro data; rfl
  | cons arg rest ih =>
    intro data
    cases arg with
    | map m => simp only [List.filter, isMapping, List.foldl_cons]; exact ih _
    | null => simp only [List.filter, isMapping, List.foldl_cons]; exact ih _
    | bool b => simp only [List.filter, isMapping, List.foldl_cons]; exact ih _
    | num n => simp only [List.filter, isMapping, List.foldl_cons]; exact ih _
    | str s => simp only [List.filter, isMapping, List.foldl_cons]; exact ih _
    | seq l => simp only [List.filter, isMapping, List.foldl_cons]; exact ih _

/-- Claim C7 (theorem): `combine_info` builds its result left to right (the
model is purely functional, so no source is mutated): an allowed key --
outside the seven reserved keys and not `ansible_`-prefixed -- looks up to
the value of the last dict argument containing it, copied as-is with no
recursive merge; a disallowed key is never present; non-mapping arguments
are ignored silently; and the spec's example evaluates as stated. -/
theorem combine_info_spec :
    (∀ (args : List Node) (k : String),
        combineAllowed k = true →
        (∀ m, Node.map m ∈ args → (m.map Prod.fst).Nodup) →
        lookupKey (combine_info args) k = lastVal args k) ∧
    (∀ (args : List Node) (k : String), combineAllowed k = false →
        lookupKey (combine_info args) k = none) ∧
    (∀ args : List Node, combine_info args = combine_info (args.filter (fun a => isMapping a))) ∧
    combine_info [map [("ansible_facts", map []), ("changed", bool true), ("a", num 1)],
        map [("a", num 2), ("b", num 3)]]
      = [("a", num 2), ("b", num 3)] := by
  refine ⟨?_, ?_, ?_, by decide⟩
  · intro args k hk hn
    exact combine_loop_allowed args [] k hk hn
  · intro args k hk
    exact combine_loop_disallowed args [] k hk
  · intro args
    exact combine_skips_non_mappings args []

/-- Claim C7 (witness): two dict arguments both binding `a`; the later one
wins. -/
theorem combine_info_spec_witness :
    combineAllowed "a" = true ∧
      lookupKey (combine_info [map [("a", num 1)], map [("a", num 2)]]) "a"
        = lastVal [map [("a", num 1)], map [("a", num 2)]] "a" :=
  ⟨by decide, combine_info_spec.1 [map [("a", num 1)], map [("a", num 2)]] "a" (by decide)
    (by intro m hm; fin_cases hm <;> decide)⟩

/-! Helper lemmas and claim theorems for the key extractor. -/

/-- Claim C3, amended (theorem): on every container that is not a mapping
or lacks the `objects` key, `extract_key` raises the descriptive
shape-check AnsibleFilterError, but that exception is caught by the
function's own `except Exception` clause and re-raised wrapped in the same
AnsibleFilterError class with the extraction-error message naming the key:
the caller observes the wrapped message, and there is one error class, not
two. -/
theorem extract_key_shape_error :
    ∀ (data : Node) (key : String),
      (∀ m, data = Node.map m → lookupKey m "objects" = none) →
      extract_key data key
        = .error ("Error extracting key '" ++ key ++ "': " ++ shapeErrMsg) := by
  intro data key h
  cases data with
  | map m =>
    have hm := h m rfl
    simp [extract_key, extract_key_inner, hm]
  | null => rfl
  | bool b => rfl
  | num n => rfl
  | str s => rfl
  | seq l => rfl

/-- Claim C3 (counterexample): on the malformed container of the spec's own
test vector the shape violation is not surfaced as a bare descriptive
error: the caller receives the extraction-error wrapper naming the key
around the shape message, contradicting the claim that the shape violation
is not wrapped and re-raised as an extraction error. -/
theorem extract_key_shape_violation_wrapped :
    extract_key (map [("foo", seq [])]) "id"
        = .error ("Error extracting key 'id': " ++ shapeErrMsg) ∧
      ("Error extracting key 'id': " ++ shapeErrMsg) ≠ shapeErrMsg := by
  exact ⟨rfl, by decide⟩

/-- Claim C3 (witness): a non-mapping container, observed error wrapped. -/
theorem extract_key_shape_error_witness :
    extract_key (Node.seq []) "k" = .error ("Error extracting key 'k': " ++ shapeErrMsg) :=
  extract_key_shape_error (Node.seq []) "k" (fun m h => by cases h)

theorem extractLoop_maps :
    ∀ (S : List Node) (key : String), (∀ o ∈ S, isMapping o = true) →
      extractLoop key S = .ok (S.filterMap (fun o =>
        match o with
        | Node.map om => lookupKey om key
        | _ => none)) := by
  intro S
  induction S with
  | nil => intro key _; rfl
  | cons o rest ih =>
    intro key h
    have ho := h o (by simp)
    have hr := ih key (fun x hx => h x (List.mem_cons_of_mem _ hx))
    cases o with
    | map om =>
      cases hl : lookupKey om key with
      | some v => simp [extractLoop, pyIn, pyGet, hl, hr, List.filterMap_cons]
      | none => simp [extractLoop, pyIn, hl, hr, List.filterMap_cons]
    | null => simp [isMapping] at ho
    | bool b => simp [isMapping] at ho
    | num n => simp [isMapping] at ho
    | str s => simp [isMapping] at ho
    | seq l => simp [isMapping] at ho

/-- Claim C9 (theorem): on a well-shaped container whose `objects` value is
a sequence of mappings, `extract_key` returns, in sequence order, exactly
the values bound to the key in the elements that contain it; an element
lacking the key contributes nothing (no null placeholder), as the
filterMap formulation shows. -/
theorem extract_key_projects_in_order :
    (∀ (m : List (String × Node)) (S : List Node) (key : String),
        lookupKey m "objects" = some (Node.seq S) →
        (∀ o ∈ S, isMapping o = true) →
        extract_key (Node.map m) key
          = .ok (S.filterMap (fun o =>
              match o with
              | Node.map om => lookupKey om key
              | _ => none))) ∧
      extract_key (map [("objects", seq [map [("id", num 1)], map [("name", str "x")]])]) "id"
        = .ok [num 1] := by
  refine ⟨?_, rfl⟩
  intro m S key hobj hmaps
  have hinner : extract_key_inner (Node.map m) key
      = .ok (S.filterMap (fun o =>
          match o with
          | Node.map om => lookupKey om key
          | _ => none)) := by
    simp only [extract_key_inner, hobj, isIterable, if_true, pyIter]
    exact extractLoop_maps S key hmaps
  simp [extract_key, hinner]

/-- Claim C9 (witness): a two-element objects sequence where only the first
element has the key. -/
theorem extract_key_projects_in_order_witness :
    lookupKey [("objects", seq [map [("a", num 7)], map [("b", num 8)]])] "objects"
        = some (seq [map [("a", num 7)], map [("b", num 8)]]) ∧
      extract_key (Node.map [("objects", seq [map [("a", num 7)], map [("b", num 8)]])]) "a"
        = .ok ([map [("a", num 7)], map [("b", num 8)]].filterMap (fun o =>
            match o with
            | Node.map om => lookupKey om "a"
            | _ => none)) :=
  ⟨by decide,
   extract_key_projects_in_order.1 [("objects", seq [map [("a", num 7)], map [("b", num 8)]])]
     [map [("a", num 7)], map [("b", num 8)]] "a" (by decide)
     (by intro o ho; fin_cases ho <;> decide)⟩

/-! Helper lemmas and the claim theorem for the deep obfuscator. -/

theorem obfuscate_list_map :
    ∀ l : List Node, obfuscate_list l = l.map (fun x => obfuscate_value x none) := by
  intro l
  induction l with
  | nil => rfl
  | cons x rest ih => simp [obfuscate_list, ih]

theorem obfuscate_pairs_lookup :
    ∀ (m : List (String × Node)) (k : String),
      lookupKey (obfuscate_pairs m) k
        = Option.map (fun v => obfuscate_value v (some k)) (lookupKey m k) := by
  intro m
  induction m with
  | nil => intro k; rfl
  | cons p rest ih =>
    intro k
    obtain ⟨k0, v0⟩ := p
    by_cases hke : k0 = k
    · subst hke
      simp [obfuscate_pairs, lookupKey]
    · simp only [obfuscate_pairs, lookupKey, if_neg hke]
      exact ih k

theorem sensitive_key_ne_empty (k : String)
    (h : sensitiveKeys.contains (keyLower k) = true) : (k != "") = true := by
  by_cases hk : k = ""
  · subst hk
    exact absurd h (by decide)
  · simpa using hk

/-- Claim C8 (theorem): the obfuscator applies the GPU-UUID substitution to
every string it reaches regardless of key context -- elements of sequences
are processed with no key, and a keyless string is exactly the GPU
substitution of itself -- and then at most one key-dependent full-value
rule fires, first match wins: a key whose lowercasing is in
{username, user, hostname, user_id} replaces the whole value with
[OBFUSCATED]; else the key exactly `wan_address` does the same; else the
key exactly `path` rewrites /home/<non-slash-chars> runs of the
GPU-substituted value; dict entries recurse under their own key; and
obfuscating a dict binding username to alice yields [OBFUSCATED]. -/
theorem obfuscate_value_spec :
    (∀ (l : List Node) (key : Option String),
        obfuscate_value (Node.seq l) key = Node.seq (l.map (fun x => obfuscate_value x none))) ∧
    (∀ s : String, obfuscate_value (Node.str s) none = Node.str (gpuSub s)) ∧
    (∀ (s k : String), sensitiveKeys.contains (keyLower k) = true →
        obfuscate_value (Node.str s) (some k) = Node.str "[OBFUSCATED]") ∧
    (∀ s : String, obfuscate_value (Node.str s) (some "wan_address") = Node.str "[OBFUSCATED]") ∧
    (∀ s : String, obfuscate_value (Node.str s) (some "path") = Node.str (homeSub (gpuSub s))) ∧
    (∀ (m : List (String × Node)) (k : String),
        lookupKey (obfuscate_pairs m) k
          = Option.map (fun v => obfuscate_value v (some k)) (lookupKey m k)) ∧
    gpuSub "GPU-ab12-cd34" = "GPU-XXXXXX" ∧
    homeSub "/home/alice/bin" = "/home/[OBFUSCATED]/bin" ∧
    obfuscate_run [map [("username", str "alice")]] = [map [("username", str "[OBFUSCATED]")]] := by
  refine ⟨?_, fun s => rfl, ?_, ?_, ?_, obfuscate_pairs_lookup,
    by simp [gpuSub, gpuScan, isGpuChar, List.dropWhile],
    by simp [homeSub, homeScan, List.dropWhile], rfl⟩
  · intro l key
    simp [obfuscate_value, obfuscate_list_map]
  · intro s k h
    have hne := sensitive_key_ne_empty k h
    have hmem : keyLower k ∈ sensitiveKeys := List.elem_iff.mp h
    simp [obfuscate_value, h, hne, hmem]
  · intro s
    have h1 : (("wan_address" != "") && sensitiveKeys.contains (keyLower "wan_address")) = false := by
      decide
    have h2 : keyLower "wan_address" ∉ sensitiveKeys := by decide
    simp [obfuscate_value, h1, h2]
  · intro s
    have h1 : (("path" != "") && sensitiveKeys.contains (keyLower "path")) = false := by decide
    have h2 : keyLower "path" ∉ sensitiveKeys := by decide
    simp [obfuscate_value, h1, h2]

/-- Claim C8 (witness): the sensitive-key rule fires case-insensitively on
a concrete key and value. -/
theorem obfuscate_value_spec_witness :
    sensitiveKeys.contains (keyLower "USERNAME") = true ∧
      obfuscate_value (Node.str "alice") (some "USERNAME") = Node.str "[OBFUSCATED]" :=
  ⟨by decide, obfuscate_value_spec.2.2.1 "alice" "USERNAME" (by decide)⟩

end HostInspector
